import Mathlib

/-!
Verification of the GMinventory core (src/app.py): the inventory store,
the append-only movement ledger, and the low-stock notification logic.

The embedding follows the source:
* the `inventory` SQL table, keyed by the primary key (item_number, lot),
  becomes an association list from keys to record data; an SQL UPDATE by
  primary key becomes `setInv`, an INSERT becomes a list append;
* the `history` SQL table (SERIAL id, rows accumulate in insertion order)
  becomes a list of `LedgerEntry`, appended at the end (newest last);
* quantities are rationals: the `quantity` columns are NUMERIC, the add
  form parses a float, the remove and adjust forms parse ints (the int
  inputs are coerced into the rational quantity domain);
* route handlers `add_item`, `remove_item`, `adjust_item` (POST branches)
  become `addItem`, `removeItem`, `adjustItem`; the error strings the
  handlers return become the `InvError` type;
* `send_low_stock_email` and the threshold check after a successful
  remove become `send_low_stock_email` / `removeItemWithNotify`.
-/

namespace GMInventory

/-- A key of the `inventory` table: (item_number, lot), its primary key. -/
abbrev Key := String × String

/-- One row of the `inventory` table, minus the key columns. -/
structure RecordData where
  name : String
  quantity : ℚ
  unit : String
  supplier : String
  exp : String
deriving Repr, DecidableEq

/-- The `inventory` table: association list from primary key to row data. -/
abbrev Inventory := List (Key × RecordData)

/-- One row of the `history` table, minus the SERIAL id and timestamp
(which are generated by the database and carry no claim content). -/
structure LedgerEntry where
  item_number : String
  lot : String
  change : ℚ
  remaining : ℚ
  unit : String
  action_type : String
  username : String
deriving Repr, DecidableEq

/-- The whole persistent state the core mutates: the `inventory` table and
the append-only `history` table. -/
structure State where
  inv : Inventory
  history : List LedgerEntry
deriving Repr, DecidableEq

/-- The empty database. -/
def emptyState : State := ⟨[], []⟩

/-- Lookup: `SELECT ... FROM inventory WHERE item_number = i AND lot = l`:
first row whose key matches (the primary key makes it unique). -/
def lookupInv : Inventory → Key → Option RecordData
  | [], _ => none
  | (k0, r) :: rest, k => if k0 = k then some r else lookupInv rest k

/-- Update: `UPDATE inventory SET ... WHERE item_number = i AND lot = l`:
replace the data of every row whose key matches. -/
def setInv (inv : Inventory) (k : Key) (r : RecordData) : Inventory :=
  inv.map (fun p => if p.1 = k then (k, r) else p)

/-- Quantity currently stored under a key, 0 when the key is absent. -/
def qtyOf (st : State) (k : Key) : ℚ :=
  match lookupInv st.inv k with
  | some r => r.quantity
  | none => 0

/-- The errors the mutating handlers report to the user
(the ERROR strings returned by `remove_item` and `adjust_item`). -/
inductive InvError where
  | notFound
  | insufficientStock
deriving Repr, DecidableEq

/-- Handler `add_item`, POST branch (src/app.py lines 614-660): upsert by
(item_number, lot) with `quantity = inventory.quantity + excluded.quantity`
on conflict and all descriptive columns overwritten, then re-select the
quantity, then insert one ADD history row. Never fails. -/
def addItem (st : State) (i n : String) (q : ℚ) (u l s e usr : String) : State :=
  let key : Key := (i, l)
  let inv2 : Inventory :=
    match lookupInv st.inv key with
    | none => st.inv ++ [(key, ⟨n, q, u, s, e⟩)]
    | some old => setInv st.inv key ⟨n, old.quantity + q, u, s, e⟩
  let remaining_qty : ℚ :=
    match lookupInv inv2 key with
    | some r => r.quantity
    | none => q
  ⟨inv2, st.history ++ [⟨i, l, q, remaining_qty, u, "ADD", usr⟩]⟩

/-- What a successful `remove_item` hands to the notification step:
the new quantity plus the row data read before the update. -/
structure RemoveOut where
  new_qty : ℚ
  unit : String
  item_name : String
  supplier : String
deriving Repr, DecidableEq

/-- Handler `remove_item`, POST branch (src/app.py lines 679-733, without the
notification step): missing row → NotFound; `qty_remove > current` →
InsufficientStock; otherwise update the quantity to
`current - qty_remove` and insert one REMOVE history row with change
`-qty_remove`. -/
def removeItem (st : State) (i l : String) (qty_remove : ℤ) (usr : String) :
    Except InvError (State × RemoveOut) :=
  match lookupInv st.inv (i, l) with
  | none => .error .notFound
  | some row =>
    if (qty_remove : ℚ) > row.quantity then .error .insufficientStock
    else
      let new_qty : ℚ := row.quantity - (qty_remove : ℚ)
      .ok (⟨setInv st.inv (i, l) { row with quantity := new_qty },
            st.history ++
              [⟨i, l, -(qty_remove : ℚ), new_qty, row.unit, "REMOVE", usr⟩]⟩,
           ⟨new_qty, row.unit, row.name, row.supplier⟩)

/-- Handler `adjust_item`, POST branch (src/app.py lines 747-791): missing row →
NotFound; otherwise set quantity and unit absolutely and insert one
ADJUST history row with change `new_quantity - old_quantity`; the
description, when non-empty, is folded into the action text. Like the
`int()` conversions, the `.strip()` of the description happens while the
form input is read, so the parameter holds the already stripped text. -/
def adjustItem (st : State) (i l : String) (new_quantity : ℤ)
    (new_unit description usr : String) : Except InvError State :=
  match lookupInv st.inv (i, l) with
  | none => .error .notFound
  | some row =>
    .ok ⟨setInv st.inv (i, l)
           { row with quantity := (new_quantity : ℚ), unit := new_unit },
         st.history ++
           [⟨i, l, (new_quantity : ℚ) - row.quantity, (new_quantity : ℚ),
             new_unit,
             if description = "" then "ADJUST"
             else "ADJUST (" ++ description ++ ")",
             usr⟩]⟩

/-! ### Basic lemmas about the table operations -/

theorem lookupInv_append_self {inv : Inventory} {k : Key} (r : RecordData)
    (h : lookupInv inv k = none) : lookupInv (inv ++ [(k, r)]) k = some r := by
  induction inv with
  | nil => simp [lookupInv]
  | cons p rest ih =>
    rw [List.cons_append]
    by_cases hk : p.1 = k
    · simp [lookupInv, hk] at h
    · simp only [lookupInv] at h ⊢
      rw [if_neg hk] at h ⊢
      exact ih h

theorem lookupInv_append_ne {inv : Inventory} {k k' : Key} (r : RecordData)
    (h : k' ≠ k) : lookupInv (inv ++ [(k, r)]) k' = lookupInv inv k' := by
  induction inv with
  | nil =>
    simp only [List.nil_append, lookupInv]
    rw [if_neg (Ne.symm h)]
  | cons p rest ih =>
    rw [List.cons_append]
    simp only [lookupInv]
    by_cases hk : p.1 = k'
    · rw [if_pos hk, if_pos hk]
    · rw [if_neg hk, if_neg hk, ih]

theorem setInv_cons (p : Key × RecordData) (rest : Inventory) (k : Key)
    (r : RecordData) :
    setInv (p :: rest) k r =
      (if p.1 = k then (k, r) else p) :: setInv rest k r := by
  simp [setInv]

theorem lookupInv_set_self {inv : Inventory} {k : Key} {old : RecordData}
    (r : RecordData) (h : lookupInv inv k = some old) :
    lookupInv (setInv inv k r) k = some r := by
  induction inv with
  | nil => simp [lookupInv] at h
  | cons p rest ih =>
    simp only [lookupInv] at h
    by_cases hk : p.1 = k
    · rw [setInv_cons, if_pos hk]
      simp [lookupInv]
    · rw [if_neg hk] at h
      rw [setInv_cons, if_neg hk]
      simp only [lookupInv]
      rw [if_neg hk]
      exact ih h

theorem lookupInv_set_ne {inv : Inventory} {k k' : Key} (r : RecordData)
    (h : k' ≠ k) : lookupInv (setInv inv k r) k' = lookupInv inv k' := by
  induction inv with
  | nil => simp [lookupInv, setInv]
  | cons p rest ih =>
    by_cases hk : p.1 = k
    · rw [setInv_cons, if_pos hk]
      simp only [lookupInv]
      rw [if_neg (Ne.symm h),
          if_neg (show ¬ p.1 = k' from fun h0 => h (hk.symm.trans h0).symm)]
      exact ih
    · rw [setInv_cons, if_neg hk]
      simp only [lookupInv]
      by_cases hk' : p.1 = k'
      · rw [if_pos hk', if_pos hk']
      · rw [if_neg hk', if_neg hk']
        exact ih

theorem lookupInv_mem {inv : Inventory} {k : Key} {r : RecordData}
    (h : lookupInv inv k = some r) : (k, r) ∈ inv := by
  induction inv with
  | nil => simp [lookupInv] at h
  | cons p rest ih =>
    simp only [lookupInv] at h
    by_cases hk : p.1 = k
    · rw [if_pos hk] at h
      obtain ⟨a, b⟩ := p
      cases hk
      cases Option.some.inj h
      exact List.mem_cons_self _ _
    · rw [if_neg hk] at h
      exact List.mem_cons_of_mem _ (ih h)

theorem mem_setInv {inv : Inventory} {k : Key} {r : RecordData}
    {p : Key × RecordData} (h : p ∈ setInv inv k r) :
    p = (k, r) ∨ p ∈ inv := by
  rcases List.mem_map.1 h with ⟨p0, hp0, heq⟩
  by_cases hk : p0.1 = k
  · left
    rw [← heq, if_pos hk]
  · right
    rw [← heq, if_neg hk]
    exact hp0

theorem setInv_length (inv : Inventory) (k : Key) (r : RecordData) :
    (setInv inv k r).length = inv.length := by
  simp [setInv]

/-! ### Characterization of the three mutating handlers -/

theorem addItem_absent {st : State} {i l : String} (n : String) (q : ℚ)
    (u s e usr : String) (h : lookupInv st.inv (i, l) = none) :
    addItem st i n q u l s e usr =
      ⟨st.inv ++ [((i, l), ⟨n, q, u, s, e⟩)],
       st.history ++ [⟨i, l, q, q, u, "ADD", usr⟩]⟩ := by
  simp only [addItem, h, lookupInv_append_self _ h]

theorem addItem_present {st : State} {i l : String} {old : RecordData}
    (n : String) (q : ℚ) (u s e usr : String)
    (h : lookupInv st.inv (i, l) = some old) :
    addItem st i n q u l s e usr =
      ⟨setInv st.inv (i, l) ⟨n, old.quantity + q, u, s, e⟩,
       st.history ++ [⟨i, l, q, old.quantity + q, u, "ADD", usr⟩]⟩ := by
  simp only [addItem, h, lookupInv_set_self _ h]

theorem removeItem_absent {st : State} {i l : String} (q : ℤ) (usr : String)
    (h : lookupInv st.inv (i, l) = none) :
    removeItem st i l q usr = .error .notFound := by
  simp only [removeItem, h]

theorem removeItem_blocked {st : State} {i l : String} {q : ℤ}
    {row : RecordData} (usr : String) (h : lookupInv st.inv (i, l) = some row)
    (hgt : (q : ℚ) > row.quantity) :
    removeItem st i l q usr = .error .insufficientStock := by
  simp only [removeItem, h, if_pos hgt]

theorem removeItem_ok {st : State} {i l : String} {q : ℤ} {row : RecordData}
    (usr : String) (h : lookupInv st.inv (i, l) = some row)
    (hle : ¬ (q : ℚ) > row.quantity) :
    removeItem st i l q usr =
      .ok (⟨setInv st.inv (i, l) { row with quantity := row.quantity - (q : ℚ) },
            st.history ++
              [⟨i, l, -(q : ℚ), row.quantity - (q : ℚ), row.unit, "REMOVE", usr⟩]⟩,
           ⟨row.quantity - (q : ℚ), row.unit, row.name, row.supplier⟩) := by
  simp only [removeItem, h, if_neg hle]

theorem adjustItem_absent {st : State} {i l : String} (q : ℤ)
    (u d usr : String) (h : lookupInv st.inv (i, l) = none) :
    adjustItem st i l q u d usr = .error .notFound := by
  simp only [adjustItem, h]

theorem adjustItem_present {st : State} {i l : String} {row : RecordData}
    (q : ℤ) (u d usr : String) (h : lookupInv st.inv (i, l) = some row) :
    adjustItem st i l q u d usr =
      .ok ⟨setInv st.inv (i, l)
             { row with quantity := (q : ℚ), unit := u },
           st.history ++
             [⟨i, l, (q : ℚ) - row.quantity, (q : ℚ), u,
               if d = "" then "ADJUST" else "ADJUST (" ++ d ++ ")",
               usr⟩]⟩ := by
  simp only [adjustItem, h]

/-! ### Operation sequences -/

/-- One mutating call issued at the web boundary. -/
inductive Op where
  | add (i n : String) (q : ℚ) (u l s e usr : String)
  | remove (i l : String) (q : ℤ) (usr : String)
  | adjust (i l : String) (q : ℤ) (u d usr : String)
deriving Repr, DecidableEq

/-- The (item_number, lot) key an issued call targets. -/
def opKey : Op → Key
  | .add i _ _ _ l _ _ _ => (i, l)
  | .remove i l _ _ => (i, l)
  | .adjust i l _ _ _ _ => (i, l)

/-- State after one issued call; a rejected call leaves the state as it
was, since the handler returns its error before writing anything. -/
def applyOp (st : State) : Op → State
  | .add i n q u l s e usr => addItem st i n q u l s e usr
  | .remove i l q usr =>
    match removeItem st i l q usr with
    | .ok pr => pr.1
    | .error _ => st
  | .adjust i l q u d usr =>
    match adjustItem st i l q u d usr with
    | .ok st2 => st2
    | .error _ => st

/-- State after a sequence of issued calls. -/
def runOps (st : State) (ops : List Op) : State := ops.foldl applyOp st

/-- Whether an issued call succeeds on a given state (Add always does). -/
def opSucceeds (st : State) : Op → Bool
  | .add _ _ _ _ _ _ _ _ => true
  | .remove i l q usr =>
    match removeItem st i l q usr with
    | .ok _ => true
    | .error _ => false
  | .adjust i l q u d usr =>
    match adjustItem st i l q u d usr with
    | .ok _ => true
    | .error _ => false

/-- Ledger entries recorded against one key, oldest first. -/
def entriesFor (k : Key) (hist : List LedgerEntry) : List LedgerEntry :=
  hist.filter (fun en => decide ((en.item_number, en.lot) = k))

/-- Number of ledger entries recorded against one key. -/
def countFor (k : Key) (hist : List LedgerEntry) : ℕ :=
  (entriesFor k hist).length

/-- Number of issued calls in a sequence that target the key and succeed
in the state in which each runs. -/
def succCountFor (k : Key) : State → List Op → ℕ
  | _, [] => 0
  | st, op :: rest =>
    (if opKey op = k ∧ opSucceeds st op = true then 1 else 0) +
      succCountFor k (applyOp st op) rest

/-! ### Low-stock notification -/

/-- Arguments of one `send_low_stock_email` call. -/
structure Notification where
  item_number : String
  lot : String
  remaining_qty : ℚ
  unit : String
  item_name : String
  supplier : String
  triggered_by : String
deriving Repr, DecidableEq

/-- Configuration `LOW_STOCK_THRESHOLD = int(os.getenv("LOW_STOCK_THRESHOLD", "50"))`:
the configured threshold, 50 when the environment does not set one. -/
def lowStockThreshold (env : Option ℤ) : ℤ := env.getD 50

/-- Handler `remove_item` including the post-commit threshold check
(src/app.py lines 719-733): after the transaction commits, when
`new_qty < LOW_STOCK_THRESHOLD` the notifier is invoked exactly once,
with the post-removal quantity. -/
def removeItemWithNotify (threshold : ℤ) (st : State) (i l : String)
    (q : ℤ) (usr : String) :
    Except InvError (State × Option Notification) :=
  match removeItem st i l q usr with
  | .error err => .error err
  | .ok (st2, out) =>
    .ok (st2,
      if out.new_qty < (threshold : ℚ) then
        some ⟨i, l, out.new_qty, out.unit, out.item_name, out.supplier, usr⟩
      else none)

/-- Notifier `send_low_stock_email` (src/app.py lines 39-72), modelled by the log
line it prints: it skips when the SMTP settings are incomplete and it
catches every delivery exception, so it always returns normally. -/
def send_low_stock_email (settingsComplete : Bool)
    (deliver : Except String Unit) (n : Notification) : String :=
  if !settingsComplete then
    "Low-stock email skipped: SMTP settings incomplete."
  else
    match deliver with
    | .ok _ =>
      "Low-stock email sent for " ++ n.item_number ++ " lot " ++ n.lot ++ "."
    | .error exc => "Low-stock email failed: " ++ exc

/-- The remove handler end to end: the committed transaction result plus
the notifier log line, for a given notifier environment. -/
def removeItemAndEmail (threshold : ℤ) (settingsComplete : Bool)
    (deliver : Except String Unit) (st : State) (i l : String) (q : ℤ)
    (usr : String) :
    Except InvError (State × Option Notification) × Option String :=
  match removeItemWithNotify threshold st i l q usr with
  | .error err => (.error err, none)
  | .ok (st2, none) => (.ok (st2, none), none)
  | .ok (st2, some n) =>
    (.ok (st2, some n),
     some (send_low_stock_email settingsComplete deliver n))

/-! ### Validated inputs and non-negativity -/

/-- The input validation the spec prescribes at the boundary: Add deltas
and Adjust targets non-negative. Remove needs no side condition here
because its own stock check protects the stored quantity. -/
def validOp : Op → Bool
  | .add _ _ q _ _ _ _ _ => decide (0 ≤ q)
  | .remove _ _ _ _ => true
  | .adjust _ _ q _ _ _ => decide (0 ≤ q)

/-- Every row of the inventory table stores a non-negative quantity. -/
def nonNeg (st : State) : Prop := ∀ p ∈ st.inv, 0 ≤ p.2.quantity

instance instDecEqExcept {ε α : Type} [DecidableEq ε] [DecidableEq α] :
    DecidableEq (Except ε α) := fun a b =>
  match a, b with
  | .error x, .error y =>
    if h : x = y then .isTrue (by rw [h])
    else .isFalse (by intro hc; cases hc; exact h rfl)
  | .error _, .ok _ => .isFalse (by intro hc; cases hc)
  | .ok _, .error _ => .isFalse (by intro hc; cases hc)
  | .ok x, .ok y =>
    if h : x = y then .isTrue (by rw [h])
    else .isFalse (by intro hc; cases hc; exact h rfl)

/-! ### Inversion lemmas for successful calls -/

theorem removeItem_ok_inv {st : State} {i l : String} {q : ℤ} {usr : String}
    {pr : State × RemoveOut} (h : removeItem st i l q usr = .ok pr) :
    ∃ row, lookupInv st.inv (i, l) = some row ∧ ¬ (q : ℚ) > row.quantity ∧
      pr = (⟨setInv st.inv (i, l) { row with quantity := row.quantity - (q : ℚ) },
             st.history ++
               [⟨i, l, -(q : ℚ), row.quantity - (q : ℚ), row.unit, "REMOVE", usr⟩]⟩,
            ⟨row.quantity - (q : ℚ), row.unit, row.name, row.supplier⟩) := by
  unfold removeItem at h
  split at h
  · cases h
  · split at h
    · cases h
    · rename_i row hlk hgt
      exact ⟨row, hlk, hgt, (Except.ok.inj h).symm⟩

theorem adjustItem_ok_inv {st : State} {i l : String} {q : ℤ}
    {u d usr : String} {st2 : State} (h : adjustItem st i l q u d usr = .ok st2) :
    ∃ row, lookupInv st.inv (i, l) = some row ∧
      st2 = ⟨setInv st.inv (i, l)
               { row with quantity := (q : ℚ), unit := u },
             st.history ++
               [⟨i, l, (q : ℚ) - row.quantity, (q : ℚ), u,
                 if d = "" then "ADJUST" else "ADJUST (" ++ d ++ ")",
                 usr⟩]⟩ := by
  unfold adjustItem at h
  split at h
  · cases h
  · rename_i row hlk
    exact ⟨row, hlk, (Except.ok.inj h).symm⟩

/-! ### How `applyOp` relates to the handlers -/

theorem applyOp_add (st : State) (i n : String) (q : ℚ) (u l s e usr : String) :
    applyOp st (.add i n q u l s e usr) = addItem st i n q u l s e usr := rfl

theorem applyOp_remove_ok {st : State} {i l : String} {q : ℤ} {usr : String}
    {pr : State × RemoveOut} (h : removeItem st i l q usr = .ok pr) :
    applyOp st (.remove i l q usr) = pr.1 := by
  simp [applyOp, h]

theorem applyOp_remove_err {st : State} {i l : String} {q : ℤ} {usr : String}
    {er : InvError} (h : removeItem st i l q usr = .error er) :
    applyOp st (.remove i l q usr) = st := by
  simp [applyOp, h]

theorem applyOp_adjust_ok {st : State} {i l : String} {q : ℤ}
    {u d usr : String} {st2 : State}
    (h : adjustItem st i l q u d usr = .ok st2) :
    applyOp st (.adjust i l q u d usr) = st2 := by
  simp [applyOp, h]

theorem applyOp_adjust_err {st : State} {i l : String} {q : ℤ}
    {u d usr : String} {er : InvError}
    (h : adjustItem st i l q u d usr = .error er) :
    applyOp st (.adjust i l q u d usr) = st := by
  simp [applyOp, h]

/-! ### Preservation of non-negativity by validated calls -/

instance nonNegDecidable (st : State) : Decidable (nonNeg st) :=
  inferInstanceAs (Decidable (∀ p ∈ st.inv, 0 ≤ p.2.quantity))

theorem nonNeg_applyOp {st : State} {op : Op} (h : nonNeg st)
    (hv : validOp op = true) : nonNeg (applyOp st op) := by
  cases op with
  | add i n q u l s e usr =>
    have hq : (0 : ℚ) ≤ q := of_decide_eq_true hv
    rw [applyOp_add]
    cases hlk : lookupInv st.inv (i, l) with
    | none =>
      rw [addItem_absent n q u s e usr hlk]
      intro p hp
      rcases List.mem_append.1 hp with hp | hp
      · exact h p hp
      · rw [List.mem_singleton] at hp
        subst hp
        exact hq
    | some old =>
      rw [addItem_present n q u s e usr hlk]
      intro p hp
      rcases mem_setInv hp with hp | hp
      · subst hp
        exact add_nonneg (h _ (lookupInv_mem hlk)) hq
      · exact h p hp
  | remove i l q usr =>
    cases hrem : removeItem st i l q usr with
    | error er => rw [applyOp_remove_err hrem]; exact h
    | ok pr =>
      rw [applyOp_remove_ok hrem]
      obtain ⟨row, hlk, hgt, hpr⟩ := removeItem_ok_inv hrem
      rw [hpr]
      intro p hp
      rcases mem_setInv hp with hp | hp
      · subst hp
        exact sub_nonneg.2 (not_lt.1 hgt)
      · exact h p hp
  | adjust i l q u d usr =>
    have hq : (0 : ℚ) ≤ (q : ℚ) := by
      have : (0 : ℤ) ≤ q := of_decide_eq_true hv
      exact_mod_cast this
    cases hadj : adjustItem st i l q u d usr with
    | error er => rw [applyOp_adjust_err hadj]; exact h
    | ok st2 =>
      rw [applyOp_adjust_ok hadj]
      obtain ⟨row, hlk, hst2⟩ := adjustItem_ok_inv hadj
      rw [hst2]
      intro p hp
      rcases mem_setInv hp with hp | hp
      · subst hp
        exact hq
      · exact h p hp

theorem nonNeg_runOps {st : State} {ops : List Op} (h : nonNeg st)
    (hv : ∀ op ∈ ops, validOp op = true) : nonNeg (runOps st ops) := by
  induction ops generalizing st with
  | nil => exact h
  | cons op rest ih =>
    exact ih (nonNeg_applyOp h (hv op (List.mem_cons_self _ _)))
      (fun o ho => hv o (List.mem_cons_of_mem _ ho))

/-! ### Concrete states used to exercise the theorems -/

/-- A one-row inventory: 100 kg of item A1, lot L1. -/
def stEx : State :=
  ⟨[(("A1", "L1"), ⟨"Gummy Base", 100, "kg", "Supplier Co", "2026-01-01"⟩)], []⟩

/-- A short, fully valid sequence of issued calls. -/
def opsEx : List Op :=
  [.add "A1" "Gummy Base" 10 "kg" "L1" "Supplier Co" "2026-01-01" "alice",
   .remove "A1" "L1" 30 "alice",
   .adjust "A1" "L1" 500 "kg" "cycle count" "alice"]

example :
    qtyOf (addItem emptyState "A1" "N" 100 "kg" "L1" "S" "2026" "u") ("A1", "L1")
      = 100 := by decide

example :
    (addItem (addItem emptyState "A1" "N" 100 "kg" "L1" "S" "2026" "u")
        "A1" "N" 50 "kg" "L1" "S" "2026" "u").history.length = 2 := by decide

/-! ### Stored quantity after each handler -/

theorem qtyOf_some {st : State} {k : Key} {r : RecordData}
    (h : lookupInv st.inv k = some r) : qtyOf st k = r.quantity := by
  unfold qtyOf
  rw [h]

theorem qtyOf_none {st : State} {k : Key} (h : lookupInv st.inv k = none) :
    qtyOf st k = 0 := by
  unfold qtyOf
  rw [h]

theorem qtyOf_after_set {inv : Inventory} {hist : List LedgerEntry} {k : Key}
    {old : RecordData} (r : RecordData) (h : lookupInv inv k = some old) :
    qtyOf ⟨setInv inv k r, hist⟩ k = r.quantity := by
  unfold qtyOf
  rw [show (⟨setInv inv k r, hist⟩ : State).inv = setInv inv k r from rfl,
    lookupInv_set_self r h]

theorem qtyOf_addItem (st : State) (i n : String) (q : ℚ) (u l s e usr : String) :
    qtyOf (addItem st i n q u l s e usr) (i, l) = qtyOf st (i, l) + q := by
  cases hlk : lookupInv st.inv (i, l) with
  | none =>
    rw [addItem_absent n q u s e usr hlk, qtyOf_none hlk]
    unfold qtyOf
    rw [show lookupInv (⟨st.inv ++ [((i, l), ⟨n, q, u, s, e⟩)], _⟩ : State).inv (i, l)
          = some ⟨n, q, u, s, e⟩ from lookupInv_append_self _ hlk]
    exact (zero_add q).symm
  | some old =>
    rw [addItem_present n q u s e usr hlk, qtyOf_some hlk]
    unfold qtyOf
    rw [show lookupInv (setInv st.inv (i, l) ⟨n, old.quantity + q, u, s, e⟩) (i, l)
          = some ⟨n, old.quantity + q, u, s, e⟩ from lookupInv_set_self _ hlk]

theorem addItem_history (st : State) (i n : String) (q : ℚ) (u l s e usr : String) :
    (addItem st i n q u l s e usr).history =
      st.history ++ [⟨i, l, q, qtyOf st (i, l) + q, u, "ADD", usr⟩] := by
  cases hlk : lookupInv st.inv (i, l) with
  | none =>
    rw [addItem_absent n q u s e usr hlk, qtyOf_none hlk, zero_add]
  | some old =>
    rw [addItem_present n q u s e usr hlk, qtyOf_some hlk]

/-! ## The claims -/

/-- C1, counterexample: the code never validates the sign of the Add
delta, so one Add with delta -5 on the empty database stores the
negative quantity -5, refuting the unconditional claim that no
operation ever produces a negative stored quantity. -/
theorem C1_counterexample :
    qtyOf (addItem emptyState "A1" "Citric Acid" (-5) "kg" "L1" "S" "2026-01-01" "u")
        ("A1", "L1") = -5 := by decide

/-- C1, amended: starting from a state whose stored quantities are all
non-negative, every sequence of issued calls whose Add deltas and
Adjust targets are non-negative keeps every stored quantity
non-negative; Remove needs no side condition because its own
insufficient-stock check protects the invariant. -/
theorem C1_nonneg_of_valid (st : State) (ops : List Op) (h : nonNeg st)
    (hv : ∀ op ∈ ops, validOp op = true) : nonNeg (runOps st ops) :=
  nonNeg_runOps h hv

/-- Witness for C1: the amended theorem applied to a concrete state and
a concrete valid sequence of calls, both hypotheses evaluated. -/
theorem C1_nonneg_of_valid_witness :
    nonNeg stEx ∧ (∀ op ∈ opsEx, validOp op = true) ∧
      nonNeg (runOps stEx opsEx) :=
  ⟨by decide, by decide, C1_nonneg_of_valid stEx opsEx (by decide) (by decide)⟩

/-- C2: every successful mutating call appends exactly one ledger entry;
that entry satisfies change + prior stored quantity = remaining, and its
remaining field equals the stored quantity immediately afterwards. -/
theorem C2_ledger_reconciliation :
    (∀ st i n (q : ℚ) u l s e usr, ∃ en : LedgerEntry,
      (addItem st i n q u l s e usr).history = st.history ++ [en] ∧
      en.change + qtyOf st (i, l) = en.remaining ∧
      en.remaining = qtyOf (addItem st i n q u l s e usr) (i, l)) ∧
    (∀ st i l (q : ℤ) usr pr, removeItem st i l q usr = .ok pr →
      ∃ en : LedgerEntry,
      pr.1.history = st.history ++ [en] ∧
      en.change + qtyOf st (i, l) = en.remaining ∧
      en.remaining = qtyOf pr.1 (i, l)) ∧
    (∀ st i l (q : ℤ) u d usr st2, adjustItem st i l q u d usr = .ok st2 →
      ∃ en : LedgerEntry,
      st2.history = st.history ++ [en] ∧
      en.change + qtyOf st (i, l) = en.remaining ∧
      en.remaining = qtyOf st2 (i, l)) := by
  refine ⟨?_, ?_, ?_⟩
  · intro st i n q u l s e usr
    refine ⟨⟨i, l, q, qtyOf st (i, l) + q, u, "ADD", usr⟩,
      addItem_history st i n q u l s e usr, ?_, ?_⟩
    · exact add_comm q (qtyOf st (i, l))
    · exact (qtyOf_addItem st i n q u l s e usr).symm
  · intro st i l q usr pr hok
    obtain ⟨row, hlk, hgt, hpr⟩ := removeItem_ok_inv hok
    refine ⟨⟨i, l, -(q : ℚ), row.quantity - (q : ℚ), row.unit, "REMOVE", usr⟩,
      ?_, ?_, ?_⟩
    · rw [hpr]
    · rw [qtyOf_some hlk]
      ring
    · rw [hpr]
      exact (qtyOf_after_set
        { row with quantity := row.quantity - (q : ℚ) } hlk).symm
  · intro st i l q u d usr st2 hok
    obtain ⟨row, hlk, hst2⟩ := adjustItem_ok_inv hok
    refine ⟨⟨i, l, (q : ℚ) - row.quantity, (q : ℚ), u,
      if d = "" then "ADJUST" else "ADJUST (" ++ d ++ ")", usr⟩,
      ?_, ?_, ?_⟩
    · rw [hst2]
    · rw [qtyOf_some hlk]
      ring
    · rw [hst2]
      exact (qtyOf_after_set
        { row with quantity := (q : ℚ), unit := u } hlk).symm

/-- The concrete result of removing 60 kg from `stEx`. -/
def remExPair : State × RemoveOut :=
  (⟨[(("A1", "L1"), ⟨"Gummy Base", 40, "kg", "Supplier Co", "2026-01-01"⟩)],
    [⟨"A1", "L1", -60, 40, "kg", "REMOVE", "alice"⟩]⟩,
   ⟨40, "kg", "Gummy Base", "Supplier Co"⟩)

/-- The concrete result of adjusting `stEx` to 500 kg. -/
def adjExSt : State :=
  ⟨[(("A1", "L1"), ⟨"Gummy Base", 500, "kg", "Supplier Co", "2026-01-01"⟩)],
   [⟨"A1", "L1", 400, 500, "kg", "ADJUST", "alice"⟩]⟩

/-- Witness for C2: the theorem applied to a concrete add, a concrete
successful remove and a concrete successful adjust, with the success
hypotheses evaluated. -/
theorem C2_ledger_reconciliation_witness :
    (∃ en : LedgerEntry,
      (addItem stEx "A1" "Gummy Base" 50 "kg" "L1" "Supplier Co" "2026-01-01"
          "alice").history = stEx.history ++ [en] ∧
      en.change + qtyOf stEx ("A1", "L1") = en.remaining ∧
      en.remaining = qtyOf (addItem stEx "A1" "Gummy Base" 50 "kg" "L1"
          "Supplier Co" "2026-01-01" "alice") ("A1", "L1")) ∧
    (∃ en : LedgerEntry,
      remExPair.1.history = stEx.history ++ [en] ∧
      en.change + qtyOf stEx ("A1", "L1") = en.remaining ∧
      en.remaining = qtyOf remExPair.1 ("A1", "L1")) ∧
    (∃ en : LedgerEntry,
      adjExSt.history = stEx.history ++ [en] ∧
      en.change + qtyOf stEx ("A1", "L1") = en.remaining ∧
      en.remaining = qtyOf adjExSt ("A1", "L1")) :=
  ⟨C2_ledger_reconciliation.1 stEx "A1" "Gummy Base" 50 "kg" "L1"
      "Supplier Co" "2026-01-01" "alice",
   C2_ledger_reconciliation.2.1 stEx "A1" "L1" 60 "alice" remExPair
      (by norm_num [removeItem, stEx, remExPair, lookupInv, setInv]),
   C2_ledger_reconciliation.2.2 stEx "A1" "L1" 500 "kg" "" "alice" adjExSt
      (by norm_num [adjustItem, stEx, adjExSt, lookupInv, setInv])⟩

/-- C3: for a Remove with positive delta: a missing (item, lot) key is
rejected as NotFound; a delta exceeding the current quantity is rejected
as InsufficientStock; in both failure cases the state (inventory and
ledger) is unchanged; otherwise the call succeeds, the new stored
quantity is current - delta, and exactly one REMOVE ledger entry is
appended. -/
theorem C3_remove_failure_semantics (st : State) (i l : String) (q : ℤ)
    (usr : String) (_hq : 0 < q) :
    (lookupInv st.inv (i, l) = none →
      removeItem st i l q usr = .error .notFound ∧
      applyOp st (.remove i l q usr) = st) ∧
    (∀ row, lookupInv st.inv (i, l) = some row → (q : ℚ) > row.quantity →
      removeItem st i l q usr = .error .insufficientStock ∧
      applyOp st (.remove i l q usr) = st) ∧
    (∀ row, lookupInv st.inv (i, l) = some row → ¬ (q : ℚ) > row.quantity →
      ∃ pr, removeItem st i l q usr = .ok pr ∧
        qtyOf pr.1 (i, l) = row.quantity - (q : ℚ) ∧
        pr.1.history = st.history ++
          [⟨i, l, -(q : ℚ), row.quantity - (q : ℚ), row.unit, "REMOVE", usr⟩]) := by
  refine ⟨?_, ?_, ?_⟩
  · intro h
    exact ⟨removeItem_absent q usr h,
      applyOp_remove_err (removeItem_absent q usr h)⟩
  · intro row h hgt
    exact ⟨removeItem_blocked usr h hgt,
      applyOp_remove_err (removeItem_blocked usr h hgt)⟩
  · intro row h hle
    refine ⟨_, removeItem_ok usr h hle, ?_, rfl⟩
    exact qtyOf_after_set { row with quantity := row.quantity - (q : ℚ) } h

/-- Witness for C3: all three branches of the theorem exercised on the
concrete one-row state: a missing lot, an over-removal of 200 from 100,
and a successful removal of 60 from 100. -/
theorem C3_remove_failure_semantics_witness :
    (removeItem stEx "A2" "L9" 5 "alice" = .error .notFound ∧
      applyOp stEx (.remove "A2" "L9" 5 "alice") = stEx) ∧
    (removeItem stEx "A1" "L1" 200 "alice" = .error .insufficientStock ∧
      applyOp stEx (.remove "A1" "L1" 200 "alice") = stEx) ∧
    (∃ pr, removeItem stEx "A1" "L1" 60 "alice" = .ok pr ∧
      qtyOf pr.1 ("A1", "L1") = (100 : ℚ) - ((60 : ℤ) : ℚ) ∧
      pr.1.history = stEx.history ++
        [⟨"A1", "L1", -((60 : ℤ) : ℚ), (100 : ℚ) - ((60 : ℤ) : ℚ), "kg",
          "REMOVE", "alice"⟩]) :=
  ⟨(C3_remove_failure_semantics stEx "A2" "L9" 5 "alice" (by decide)).1
      (by decide),
   (C3_remove_failure_semantics stEx "A1" "L1" 200 "alice" (by decide)).2.1
      ⟨"Gummy Base", 100, "kg", "Supplier Co", "2026-01-01"⟩ (by decide)
      (by norm_num),
   (C3_remove_failure_semantics stEx "A1" "L1" 60 "alice" (by decide)).2.2
      ⟨"Gummy Base", 100, "kg", "Supplier Co", "2026-01-01"⟩ (by decide)
      (by norm_num)⟩

/-- The quantity stored under a key after an adjust call, none when the
call was rejected. -/
def adjResultQty (r : Except InvError State) (k : Key) : Option ℚ :=
  match r with
  | .ok st => some (qtyOf st k)
  | .error _ => none

/-- C4, counterexample: `adjust_item` never rejects a negative
new_quantity: adjusting the existing row to -5 succeeds and stores -5,
so no InvalidQuantity rejection exists in the code. -/
theorem C4_counterexample :
    adjResultQty (adjustItem stEx "A1" "L1" (-5) "kg" "" "alice") ("A1", "L1")
      = some (-5) := by
  norm_num [adjResultQty, adjustItem, stEx, lookupInv, setInv, qtyOf]

/-- C4, amended: Adjust validates only existence: a missing key fails
with NotFound and the state unchanged; when the row exists, any integer
new_quantity — negative included — is accepted and stored together with
the new unit; the code has no InvalidQuantity rejection. -/
theorem C4_adjust_validation (st : State) (i l : String) (q : ℤ)
    (u d usr : String) :
    (lookupInv st.inv (i, l) = none →
      adjustItem st i l q u d usr = .error .notFound ∧
      applyOp st (.adjust i l q u d usr) = st) ∧
    (∀ row, lookupInv st.inv (i, l) = some row →
      ∃ st2, adjustItem st i l q u d usr = .ok st2 ∧
        lookupInv st2.inv (i, l) =
          some { row with quantity := (q : ℚ), unit := u }) := by
  refine ⟨?_, ?_⟩
  · intro h
    exact ⟨adjustItem_absent q u d usr h,
      applyOp_adjust_err (adjustItem_absent q u d usr h)⟩
  · intro row h
    exact ⟨_, adjustItem_present q u d usr h, lookupInv_set_self _ h⟩

/-- Witness for C4: the amended theorem at a missing key and at the
existing row with the negative target -5. -/
theorem C4_adjust_validation_witness :
    (adjustItem stEx "A2" "L9" 7 "kg" "" "alice" = .error .notFound ∧
      applyOp stEx (.adjust "A2" "L9" 7 "kg" "" "alice") = stEx) ∧
    (∃ st2, adjustItem stEx "A1" "L1" (-5) "kg" "" "alice" = .ok st2 ∧
      lookupInv st2.inv ("A1", "L1") =
        some ⟨"Gummy Base", ((-5 : ℤ) : ℚ), "kg", "Supplier Co",
          "2026-01-01"⟩) :=
  ⟨(C4_adjust_validation stEx "A2" "L9" 7 "kg" "" "alice").1 (by decide),
   (C4_adjust_validation stEx "A1" "L1" (-5) "kg" "" "alice").2
      ⟨"Gummy Base", 100, "kg", "Supplier Co", "2026-01-01"⟩ (by decide)⟩

/-- C5: Add is an upsert-merge: an absent key gets a new record whose
quantity is the delta and whose descriptive fields are the supplied
ones; a present key accumulates quantity and has name, unit, supplier
and expiration overwritten; the call never fails (it is total by type)
and always appends exactly one ADD ledger entry with change = delta and
remaining = the resulting stored quantity. -/
theorem C5_add_upsert (st : State) (i n : String) (q : ℚ)
    (u l s e usr : String) :
    (lookupInv st.inv (i, l) = none →
      lookupInv (addItem st i n q u l s e usr).inv (i, l) =
        some ⟨n, q, u, s, e⟩) ∧
    (∀ old, lookupInv st.inv (i, l) = some old →
      lookupInv (addItem st i n q u l s e usr).inv (i, l) =
        some ⟨n, old.quantity + q, u, s, e⟩) ∧
    (addItem st i n q u l s e usr).history =
      st.history ++
        [⟨i, l, q, qtyOf (addItem st i n q u l s e usr) (i, l), u, "ADD",
          usr⟩] := by
  refine ⟨?_, ?_, ?_⟩
  · intro h
    rw [addItem_absent n q u s e usr h]
    exact lookupInv_append_self _ h
  · intro old h
    rw [addItem_present n q u s e usr h]
    exact lookupInv_set_self _ h
  · rw [qtyOf_addItem, addItem_history]

/-- Witness for C5: both branches of the theorem exercised concretely:
creation on the empty database, and merge onto the existing 100 kg row
with every descriptive field changed. -/
theorem C5_add_upsert_witness :
    lookupInv (addItem emptyState "A1" "Gummy Base" 100 "kg" "L1"
        "Supplier Co" "2026-01-01" "alice").inv ("A1", "L1") =
      some ⟨"Gummy Base", 100, "kg", "Supplier Co", "2026-01-01"⟩ ∧
    lookupInv (addItem stEx "A1" "Citrus Mix" 50 "bags" "L1" "Acme"
        "2027-02-02" "bob").inv ("A1", "L1") =
      some ⟨"Citrus Mix", (100 : ℚ) + 50, "bags", "Acme", "2027-02-02"⟩ :=
  ⟨(C5_add_upsert emptyState "A1" "Gummy Base" 100 "kg" "L1" "Supplier Co"
      "2026-01-01" "alice").1 (by decide),
   (C5_add_upsert stEx "A1" "Citrus Mix" 50 "bags" "L1" "Acme" "2027-02-02"
      "bob").2.1 ⟨"Gummy Base", 100, "kg", "Supplier Co", "2026-01-01"⟩
      (by decide)⟩

/-! ### Sequences of Add/Remove calls on one fixed key (claim C6) -/

/-- An Add or Remove call with the (item_number, lot) key left implicit,
for sequences issued against one fixed key. -/
inductive KeyOp where
  | add (n : String) (q : ℚ) (u s e usr : String)
  | remove (q : ℤ) (usr : String)
deriving Repr, DecidableEq

/-- Run a sequence of calls against one fixed key; none when some
Remove in the sequence is rejected (the claim quantifies over sequences
of successful operations). -/
def runKeyOps (k : Key) : State → List KeyOp → Option State
  | st, [] => some st
  | st, .add n q u s e usr :: rest =>
    runKeyOps k (addItem st k.1 n q u k.2 s e usr) rest
  | st, .remove q usr :: rest =>
    match removeItem st k.1 k.2 q usr with
    | .ok pr => runKeyOps k pr.1 rest
    | .error _ => none

/-- Net signed sum of the deltas of a sequence. -/
def sumDeltas : List KeyOp → ℚ
  | [] => 0
  | .add _ q _ _ _ _ :: rest => q + sumDeltas rest
  | .remove q _ :: rest => -(q : ℚ) + sumDeltas rest

/-- Sum of the Add deltas of a sequence. -/
def addDeltaSum : List KeyOp → ℚ
  | [] => 0
  | .add _ q _ _ _ _ :: rest => q + addDeltaSum rest
  | .remove _ _ :: rest => addDeltaSum rest

/-- Sum of the Remove deltas of a sequence. -/
def removeDeltaSum : List KeyOp → ℚ
  | [] => 0
  | .add _ _ _ _ _ _ :: rest => removeDeltaSum rest
  | .remove q _ :: rest => (q : ℚ) + removeDeltaSum rest

theorem sumDeltas_eq (ops : List KeyOp) :
    sumDeltas ops = addDeltaSum ops - removeDeltaSum ops := by
  induction ops with
  | nil => simp [sumDeltas, addDeltaSum, removeDeltaSum]
  | cons op rest ih =>
    cases op <;>
      simp only [sumDeltas, addDeltaSum, removeDeltaSum, ih] <;> ring

/-- The most recently appended ledger entry for a key (history is kept
oldest first, so this is the last matching element). -/
def lastEntryFor (k : Key) (hist : List LedgerEntry) : Option LedgerEntry :=
  (entriesFor k hist).getLast?

theorem lastEntryFor_append_match (k : Key) (hist : List LedgerEntry)
    (en : LedgerEntry) (hk : (en.item_number, en.lot) = k) :
    lastEntryFor k (hist ++ [en]) = some en := by
  unfold lastEntryFor entriesFor
  rw [List.filter_append]
  have hone : List.filter (fun x => decide ((x.item_number, x.lot) = k)) [en]
      = [en] := by
    simp [hk]
  rw [hone, List.getLast?_concat]

/-- Main induction for conservation: along any successful run on a fixed
key, the stored quantity grows by the signed sum of the deltas, and when
at least one call ran, the most recent ledger entry for the key has
remaining equal to the stored quantity. -/
theorem runKeyOps_qty (k : Key) (ops : List KeyOp) :
    ∀ st st', runKeyOps k st ops = some st' →
      qtyOf st' k = qtyOf st k + sumDeltas ops ∧
      ((ops = [] ∧ st' = st) ∨
        ∃ en, lastEntryFor k st'.history = some en ∧
          en.remaining = qtyOf st' k) := by
  obtain ⟨ki, kl⟩ := k
  induction ops with
  | nil =>
    intro st st' h
    obtain rfl := Option.some.inj h
    exact ⟨by rw [show sumDeltas [] = 0 from rfl, add_zero],
      Or.inl ⟨rfl, rfl⟩⟩
  | cons op rest ih =>
    intro st st' h
    cases op with
    | add n q u s e usr =>
      have h' : runKeyOps (ki, kl) (addItem st ki n q u kl s e usr) rest
          = some st' := h
      obtain ⟨hq, hlast⟩ := ih (addItem st ki n q u kl s e usr) st' h'
      refine ⟨?_, Or.inr ?_⟩
      · rw [hq, qtyOf_addItem, show sumDeltas (.add n q u s e usr :: rest)
            = q + sumDeltas rest from rfl]
        ring
      · rcases hlast with ⟨hrest, hst⟩ | ⟨en, hen, hr⟩
        · subst hst
          refine ⟨⟨ki, kl, q, qtyOf st (ki, kl) + q, u, "ADD", usr⟩, ?_, ?_⟩
          · rw [show (addItem st ki n q u kl s e usr).history
                = st.history ++ [⟨ki, kl, q, qtyOf st (ki, kl) + q, u, "ADD",
                  usr⟩] from addItem_history st ki n q u kl s e usr]
            exact lastEntryFor_append_match _ _ _ rfl
          · rw [qtyOf_addItem]
        · exact ⟨en, hen, hr⟩
    | remove q usr =>
      cases hrem : removeItem st ki kl q usr with
      | error er =>
        simp only [runKeyOps, hrem] at h
        cases h
      | ok pr =>
        simp only [runKeyOps, hrem] at h
        obtain ⟨row, hlk, _hgt, hpr⟩ := removeItem_ok_inv hrem
        obtain ⟨hq, hlast⟩ := ih pr.1 st' h
        have e1 : qtyOf pr.1 (ki, kl) = row.quantity - (q : ℚ) := by
          rw [hpr]
          exact qtyOf_after_set
            { row with quantity := row.quantity - (q : ℚ) } hlk
        have e2 : qtyOf st (ki, kl) = row.quantity := qtyOf_some hlk
        refine ⟨?_, Or.inr ?_⟩
        · rw [hq, e1, e2, show sumDeltas (.remove q usr :: rest)
              = -(q : ℚ) + sumDeltas rest from rfl]
          ring
        · rcases hlast with ⟨hrest, hst⟩ | ⟨en, hen, hr⟩
          · subst hst
            refine ⟨⟨ki, kl, -(q : ℚ), row.quantity - (q : ℚ), row.unit,
              "REMOVE", usr⟩, ?_, ?_⟩
            · rw [show pr.1.history = st.history ++
                  [⟨ki, kl, -(q : ℚ), row.quantity - (q : ℚ), row.unit,
                    "REMOVE", usr⟩] from by rw [hpr]]
              exact lastEntryFor_append_match _ _ _ rfl
            · exact e1.symm
          · exact ⟨en, hen, hr⟩

/-- C6: along any sequence of successful Add/Remove calls on one fixed
key starting from stored quantity 0, the final stored quantity equals
the sum of the Add deltas minus the sum of the Remove deltas, and that
value is the remaining field of the most recently appended ledger entry
for the key. -/
theorem C6_conservation (k : Key) (ops : List KeyOp) (st st' : State)
    (h0 : qtyOf st k = 0) (hrun : runKeyOps k st ops = some st')
    (hne : ops ≠ []) :
    qtyOf st' k = addDeltaSum ops - removeDeltaSum ops ∧
    ∃ en, lastEntryFor k st'.history = some en ∧
      en.remaining = addDeltaSum ops - removeDeltaSum ops := by
  obtain ⟨hq, hlast⟩ := runKeyOps_qty k ops st st' hrun
  rw [h0, zero_add, sumDeltas_eq] at hq
  rcases hlast with ⟨hnil, _⟩ | ⟨en, hen, hr⟩
  · exact absurd hnil hne
  · exact ⟨hq, en, hen, by rw [hr, hq]⟩

/-- The concrete sequence of the scenario in the spec: add 100, add 50,
remove 120, all on one key. -/
def opsC6 : List KeyOp :=
  [.add "N" 100 "kg" "S" "2026-01-01" "u",
   .add "N" 50 "kg" "S" "2026-01-01" "u",
   .remove 120 "u"]

/-- The state the scenario ends in. -/
def stC6 : State :=
  ⟨[(("A1", "L1"), ⟨"N", 30, "kg", "S", "2026-01-01"⟩)],
   [⟨"A1", "L1", 100, 100, "kg", "ADD", "u"⟩,
    ⟨"A1", "L1", 50, 150, "kg", "ADD", "u"⟩,
    ⟨"A1", "L1", -120, 30, "kg", "REMOVE", "u"⟩]⟩

theorem runKeyOps_opsC6_eval :
    runKeyOps ("A1", "L1") emptyState opsC6 = some stC6 := by
  norm_num [runKeyOps, opsC6, stC6, emptyState, addItem, removeItem,
    lookupInv, setInv]

/-- Witness for C6: the theorem applied to the concrete scenario run,
with all three hypotheses discharged on concrete values. -/
theorem C6_conservation_witness :
    qtyOf emptyState ("A1", "L1") = 0 ∧ opsC6 ≠ [] ∧
    (qtyOf stC6 ("A1", "L1") = addDeltaSum opsC6 - removeDeltaSum opsC6 ∧
      ∃ en, lastEntryFor ("A1", "L1") stC6.history = some en ∧
        en.remaining = addDeltaSum opsC6 - removeDeltaSum opsC6) :=
  ⟨by decide, by decide,
   C6_conservation ("A1", "L1") opsC6 emptyState stC6 (by decide)
     runKeyOps_opsC6_eval (by decide)⟩

/-- C7: the default threshold is 50; after a successful Remove the
notifier is invoked if and only if the post-removal quantity is strictly
below the threshold, at most once (the notification slot is an Option),
with the post-removal quantity as the remaining argument; and the
notifier environment — incomplete SMTP settings or a delivery failure —
never changes the committed transaction result. -/
theorem C7_low_stock_notify :
    lowStockThreshold none = 50 ∧
    ∀ (threshold : ℤ) (st : State) (i l : String) (q : ℤ) (usr : String)
      (st2 : State) (out : RemoveOut),
      removeItem st i l q usr = .ok (st2, out) →
      ((removeItemWithNotify threshold st i l q usr =
          .ok (st2, some ⟨i, l, out.new_qty, out.unit, out.item_name,
            out.supplier, usr⟩)) ↔ out.new_qty < (threshold : ℚ)) ∧
      (¬ out.new_qty < (threshold : ℚ) →
        removeItemWithNotify threshold st i l q usr = .ok (st2, none)) ∧
      (∀ sc d, (removeItemAndEmail threshold sc d st i l q usr).1 =
        removeItemWithNotify threshold st i l q usr) := by
  refine ⟨rfl, ?_⟩
  intro threshold st i l q usr st2 out hok
  have hnotify : removeItemWithNotify threshold st i l q usr =
      .ok (st2,
        if out.new_qty < (threshold : ℚ) then
          some ⟨i, l, out.new_qty, out.unit, out.item_name, out.supplier, usr⟩
        else none) := by
    unfold removeItemWithNotify
    rw [hok]
  refine ⟨⟨?_, ?_⟩, ?_, ?_⟩
  · intro heq
    by_contra hge
    rw [if_neg hge] at hnotify
    rw [hnotify] at heq
    simp at heq
  · intro hlt
    rw [hnotify, if_pos hlt]
  · intro hge
    rw [hnotify, if_neg hge]
  · intro sc d
    by_cases hlt : out.new_qty < (threshold : ℚ)
    · unfold removeItemAndEmail
      rw [hnotify, if_pos hlt]
    · unfold removeItemAndEmail
      rw [hnotify, if_neg hlt]

/-- Witness for C7: removing 60 of 100 with threshold 50 commits and
notifies with remaining 40; the committed result is unchanged whether
the SMTP settings are incomplete or delivery raises. -/
theorem C7_low_stock_notify_witness :
    removeItemWithNotify 50 stEx "A1" "L1" 60 "alice" =
      .ok (remExPair.1, some ⟨"A1", "L1", remExPair.2.new_qty,
        remExPair.2.unit, remExPair.2.item_name, remExPair.2.supplier,
        "alice"⟩) ∧
    (removeItemAndEmail 50 false (.ok ()) stEx "A1" "L1" 60 "alice").1 =
      removeItemWithNotify 50 stEx "A1" "L1" 60 "alice" ∧
    (removeItemAndEmail 50 true (.error "connection refused") stEx "A1"
        "L1" 60 "alice").1 =
      removeItemWithNotify 50 stEx "A1" "L1" 60 "alice" :=
  have hmain := (C7_low_stock_notify.2 50 stEx "A1" "L1" 60 "alice"
    remExPair.1 remExPair.2
    (by norm_num [removeItem, stEx, remExPair, lookupInv, setInv]))
  ⟨hmain.1.2 (by norm_num [remExPair]),
   hmain.2.2 false (.ok ()),
   hmain.2.2 true (.error "connection refused")⟩

/-! ### Counting ledger entries per key (claim C8) -/

theorem countFor_append_one (k : Key) (hist : List LedgerEntry)
    (en : LedgerEntry) :
    countFor k (hist ++ [en]) =
      countFor k hist + (if (en.item_number, en.lot) = k then 1 else 0) := by
  unfold countFor entriesFor
  rw [List.filter_append, List.length_append]
  by_cases hk : (en.item_number, en.lot) = k
  · simp [hk]
  · simp [hk]

theorem countFor_applyOp (k : Key) (st : State) (op : Op) :
    countFor k (applyOp st op).history =
      countFor k st.history +
        (if opKey op = k ∧ opSucceeds st op = true then 1 else 0) := by
  cases op with
  | add i n q u l s e usr =>
    rw [applyOp_add, addItem_history, countFor_append_one]
    by_cases hk : (i, l) = k
    · simp [opKey, opSucceeds, hk]
    · simp [opKey, opSucceeds, hk]
  | remove i l q usr =>
    cases hrem : removeItem st i l q usr with
    | error er =>
      rw [applyOp_remove_err hrem]
      simp [opSucceeds, hrem]
    | ok pr =>
      rw [applyOp_remove_ok hrem]
      obtain ⟨row, hlk, hgt, hpr⟩ := removeItem_ok_inv hrem
      rw [show pr.1.history = st.history ++
          [⟨i, l, -(q : ℚ), row.quantity - (q : ℚ), row.unit, "REMOVE", usr⟩]
          from by rw [hpr], countFor_append_one]
      have hsucc : opSucceeds st (.remove i l q usr) = true := by
        simp [opSucceeds, hrem]
      rw [hsucc]
      by_cases hk : (i, l) = k
      · simp [opKey, hk]
      · simp [opKey, hk]
  | adjust i l q u d usr =>
    cases hadj : adjustItem st i l q u d usr with
    | error er =>
      rw [applyOp_adjust_err hadj]
      simp [opSucceeds, hadj]
    | ok st2 =>
      rw [applyOp_adjust_ok hadj]
      obtain ⟨row, hlk, hst2⟩ := adjustItem_ok_inv hadj
      rw [show st2.history = st.history ++
          [⟨i, l, (q : ℚ) - row.quantity, (q : ℚ), u,
            if d = "" then "ADJUST" else "ADJUST (" ++ d ++ ")", usr⟩]
          from by rw [hst2], countFor_append_one]
      have hsucc : opSucceeds st (.adjust i l q u d usr) = true := by
        simp [opSucceeds, hadj]
      rw [hsucc]
      by_cases hk : (i, l) = k
      · simp [opKey, hk]
      · simp [opKey, hk]

theorem countFor_runOps (k : Key) (st : State) (ops : List Op) :
    countFor k (runOps st ops).history =
      countFor k st.history + succCountFor k st ops := by
  induction ops generalizing st with
  | nil =>
    show countFor k st.history = countFor k st.history + succCountFor k st []
    rw [show succCountFor k st [] = 0 from rfl, Nat.add_zero]
  | cons op rest ih =>
    show countFor k (runOps (applyOp st op) rest).history = _
    rw [ih (applyOp st op), countFor_applyOp,
      show succCountFor k st (op :: rest) =
        (if opKey op = k ∧ opSucceeds st op = true then 1 else 0) +
          succCountFor k (applyOp st op) rest from rfl]
    omega

/-- C8, counterexample: an issued mutating call can append zero ledger
entries: one Remove issued on the empty database is rejected NotFound
and the ledger count for its key stays 0, while the number of issued
calls is 1. -/
theorem C8_counterexample :
    removeItem emptyState "A1" "L1" 5 "u" = .error .notFound ∧
    countFor ("A1", "L1")
      (runOps emptyState [.remove "A1" "L1" 5 "u"]).history = 0 ∧
    [Op.remove "A1" "L1" 5 "u"].length = 1 := by decide

/-- C8, amended: for every key, a sequence of issued calls grows the
ledger count for that key by exactly the number of calls that target
the key and succeed: each successful mutating call appends exactly one
entry, each rejected call appends none. -/
theorem C8_ledger_completeness (k : Key) (st : State) (ops : List Op) :
    countFor k (runOps st ops).history =
      countFor k st.history + succCountFor k st ops :=
  countFor_runOps k st ops

/-- C9, counterexample: the aside that a negative delta never exceeds
the current quantity fails once a stored quantity is itself negative
(reachable, since Add accepts negative deltas): after Add of -10 on an
empty key, a Remove with delta -5 is rejected InsufficientStock instead
of succeeding. -/
theorem C9_counterexample :
    removeItem
      (addItem emptyState "A1" "N" (-10) "kg" "L1" "S" "2026-01-01" "u")
      "A1" "L1" (-5) "u" = .error .insufficientStock := by
  norm_num [addItem, removeItem, emptyState, lookupInv, setInv]

/-- C9, amended: the delta sign is not validated at the boundary:
Add accepts a negative delta and applies it as a decrement; and on a row
whose stored quantity is non-negative, a Remove with a negative delta
passes the insufficient-stock check, succeeds, increases the stored
quantity by the absolute value of the delta, and appends a REMOVE
ledger entry whose change, -delta, is positive; only on a row whose
stored quantity is already below the negative delta does the check
fire. -/
theorem C9_negative_delta (st : State) (i l usr : String) :
    (∀ n (q : ℚ) u s e old, q < 0 → lookupInv st.inv (i, l) = some old →
      qtyOf (addItem st i n q u l s e usr) (i, l) = old.quantity + q ∧
      old.quantity + q < old.quantity) ∧
    (∀ (q : ℤ) row, q < 0 → lookupInv st.inv (i, l) = some row →
      0 ≤ row.quantity →
      ∃ pr, removeItem st i l q usr = .ok pr ∧
        pr.2.new_qty = row.quantity + -(q : ℚ) ∧
        row.quantity < pr.2.new_qty ∧
        pr.1.history = st.history ++
          [⟨i, l, -(q : ℚ), row.quantity - (q : ℚ), row.unit, "REMOVE",
            usr⟩] ∧
        0 < -(q : ℚ)) := by
  constructor
  · intro n q u s e old hq hlk
    refine ⟨?_, ?_⟩
    · rw [qtyOf_addItem, qtyOf_some hlk]
    · linarith
  · intro q row hq hlk hrow
    have hqQ : (q : ℚ) < 0 := by exact_mod_cast hq
    have hle : ¬ (q : ℚ) > row.quantity :=
      not_lt.2 (le_of_lt (lt_of_lt_of_le hqQ hrow))
    refine ⟨_, removeItem_ok usr hlk hle, ?_, ?_, rfl, ?_⟩
    · show row.quantity - (q : ℚ) = row.quantity + -(q : ℚ)
      ring
    · show row.quantity < row.quantity - (q : ℚ)
      linarith
    · linarith

/-- The row stored in `stEx`. -/
def rowEx : RecordData := ⟨"Gummy Base", 100, "kg", "Supplier Co", "2026-01-01"⟩

/-- Witness for C9: Add of -30 onto the 100 kg row decrements it to 70,
and Remove of -25 succeeds and raises the quantity to 125, logging a
REMOVE entry with positive change 25. -/
theorem C9_negative_delta_witness :
    (qtyOf (addItem stEx "A1" "Gummy Base" (-30) "kg" "L1" "Supplier Co"
        "2026-01-01" "alice") ("A1", "L1") = (100 : ℚ) + (-30) ∧
      (100 : ℚ) + (-30) < (100 : ℚ)) ∧
    (∃ pr, removeItem stEx "A1" "L1" (-25) "alice" = .ok pr ∧
      pr.2.new_qty = (100 : ℚ) + -((-25 : ℤ) : ℚ) ∧
      (100 : ℚ) < pr.2.new_qty ∧
      pr.1.history = stEx.history ++
        [⟨"A1", "L1", -((-25 : ℤ) : ℚ), (100 : ℚ) - ((-25 : ℤ) : ℚ), "kg",
          "REMOVE", "alice"⟩] ∧
      0 < -((-25 : ℤ) : ℚ)) :=
  ⟨(C9_negative_delta stEx "A1" "L1" "alice").1 "Gummy Base" (-30) "kg"
      "Supplier Co" "2026-01-01" rowEx (by norm_num) (by decide),
   (C9_negative_delta stEx "A1" "L1" "alice").2 (-25) rowEx (by decide)
      (by decide) (by norm_num [rowEx])⟩

/-- C10: frame property. A successful Remove rewrites only the targeted
row and only its quantity field (name, unit, supplier, expiration kept);
a successful Adjust rewrites only the targeted row and only its quantity
and unit fields; neither creates or deletes rows (the table length is
unchanged) and every other key reads back exactly as before. -/
theorem C10_frame (st : State) (i l usr : String) :
    (∀ (q : ℤ) pr, removeItem st i l q usr = .ok pr →
      pr.1.inv.length = st.inv.length ∧
      (∀ k', k' ≠ (i, l) → lookupInv pr.1.inv k' = lookupInv st.inv k') ∧
      (∀ row, lookupInv st.inv (i, l) = some row →
        lookupInv pr.1.inv (i, l) =
          some { row with quantity := row.quantity - (q : ℚ) })) ∧
    (∀ (q : ℤ) u d st2, adjustItem st i l q u d usr = .ok st2 →
      st2.inv.length = st.inv.length ∧
      (∀ k', k' ≠ (i, l) → lookupInv st2.inv k' = lookupInv st.inv k') ∧
      (∀ row, lookupInv st.inv (i, l) = some row →
        lookupInv st2.inv (i, l) =
          some { row with quantity := (q : ℚ), unit := u })) := by
  constructor
  · intro q pr hok
    obtain ⟨row, hlk, _hgt, hpr⟩ := removeItem_ok_inv hok
    refine ⟨?_, ?_, ?_⟩
    · rw [hpr]
      exact setInv_length st.inv (i, l) _
    · intro k' hk'
      rw [hpr]
      exact lookupInv_set_ne _ hk'
    · intro row' hlk'
      have hrr : row' = row := by
        rw [hlk] at hlk'
        exact (Option.some.inj hlk').symm
      subst hrr
      rw [hpr]
      exact lookupInv_set_self _ hlk
  · intro q u d st2 hok
    obtain ⟨row, hlk, hst2⟩ := adjustItem_ok_inv hok
    refine ⟨?_, ?_, ?_⟩
    · rw [hst2]
      exact setInv_length st.inv (i, l) _
    · intro k' hk'
      rw [hst2]
      exact lookupInv_set_ne _ hk'
    · intro row' hlk'
      have hrr : row' = row := by
        rw [hlk] at hlk'
        exact (Option.some.inj hlk').symm
      subst hrr
      rw [hst2]
      exact lookupInv_set_self _ hlk

/-- Witness for C10: on the concrete one-row state, the successful
remove of 60 and the successful adjust to 500 keep the table length,
leave a foreign key reading unchanged, and rewrite the target row with
only the allowed fields changed. -/
theorem C10_frame_witness :
    (remExPair.1.inv.length = stEx.inv.length ∧
      lookupInv remExPair.1.inv ("B2", "L7") =
        lookupInv stEx.inv ("B2", "L7") ∧
      lookupInv remExPair.1.inv ("A1", "L1") =
        some { rowEx with quantity := rowEx.quantity - ((60 : ℤ) : ℚ) }) ∧
    (adjExSt.inv.length = stEx.inv.length ∧
      lookupInv adjExSt.inv ("B2", "L7") =
        lookupInv stEx.inv ("B2", "L7") ∧
      lookupInv adjExSt.inv ("A1", "L1") =
        some { rowEx with quantity := ((500 : ℤ) : ℚ), unit := "kg" }) :=
  have h10 := C10_frame stEx "A1" "L1" "alice"
  have hr := h10.1 60 remExPair
    (by norm_num [removeItem, stEx, remExPair, lookupInv, setInv])
  have ha := h10.2 500 "kg" "" adjExSt
    (by norm_num [adjustItem, stEx, adjExSt, lookupInv, setInv])
  ⟨⟨hr.1, hr.2.1 ("B2", "L7") (by decide),
    hr.2.2 rowEx (by norm_num [stEx, rowEx, lookupInv])⟩,
   ⟨ha.1, ha.2.1 ("B2", "L7") (by decide),
    ha.2.2 rowEx (by norm_num [stEx, rowEx, lookupInv])⟩⟩

end GMInventory
